import Mathlib

/-!
Verification of the key-sequence recognizer and cursor-override lifecycle
of maroider/justaprankbro (src/main.rs, src/cursor.rs), shallowly embedded
in Lean 4.

The recognizer (`KeySequence`, `process_input`) is translated directly from
`src/main.rs`; `consume` labels the same branches with the design document's
`MatchResult` values (the Rust function returns `true` exactly on the
`Complete` branch, see `process_input_eq_consume`).

The cursor lifecycle (`Cursor`, `ReplacedCursor`, `CursorKind`) is translated
from `src/cursor.rs`; the Win32 system cursor table and image handles are
modelled by an explicit `OsState` in which `SetSystemCursor h id` writes the
image referred to by handle `h` into table slot `id`, and
`LoadImageW(MAKEINTRESOURCEW id, LR_SHARED)` followed by `CopyImage` yields a
fresh handle carrying a private copy of the image currently in slot `id`.
-/

/-- The subset of winit's `VirtualKeyCode` enum relevant here: the letter
keys (the unlock sequence uses J, U, S, T, A, P, R, N, K, B, O). -/
inductive VirtualKeyCode where
  | A | B | C | D | E | F | G | H | I | J | K | L | M
  | N | O | P | Q | R | S | T | U | V | W | X | Y | Z
  deriving DecidableEq, Repr

/-- `struct KeySequence { keys: Vec<VirtualKeyCode>, idx: usize }`. -/
structure KeySequence where
  keys : List VirtualKeyCode
  idx : Nat
  deriving DecidableEq, Repr

/-- Direct translation of `KeySequence::process_input` (src/main.rs).
`none` models the panic of the out-of-bounds index `self.keys[self.idx]`. -/
def KeySequence.process_input (s : KeySequence) (keycode : VirtualKeyCode) :
    Option (Bool × KeySequence) :=
  match s.keys[s.idx]? with
  | none => none
  | some expected =>
      if expected = keycode then
        if s.idx = s.keys.length - 1 then
          some (true, s)
        else
          some (false, { s with idx := s.idx + 1 })
      else
        some (false, { s with idx := 0 })

/-- The design document's `MatchResult` ∈ {NoMatch, Partial, Complete}. -/
inductive MatchResult where
  | NoMatch | Partial | Complete
  deriving DecidableEq, Repr

/-- `process_input` with its three branches labelled by the `MatchResult`
they realise: the final-symbol match is `Complete` (Rust returns `true`),
a non-final match is `Partial`, a mismatch is `NoMatch` (both `false`).
`process_input_eq_consume` proves it is the same function. -/
def KeySequence.consume (s : KeySequence) (keycode : VirtualKeyCode) :
    Option (MatchResult × KeySequence) :=
  match s.keys[s.idx]? with
  | none => none
  | some expected =>
      if expected = keycode then
        if s.idx = s.keys.length - 1 then
          some (.Complete, s)
        else
          some (.Partial, { s with idx := s.idx + 1 })
      else
        some (.NoMatch, { s with idx := 0 })

/-- Feeding a stream of key presses one at a time, collecting the results. -/
def KeySequence.consumeAll (s : KeySequence) :
    List VirtualKeyCode → Option (List MatchResult × KeySequence)
  | [] => some ([], s)
  | k :: ks =>
      match s.consume k with
      | none => none
      | some (r, s') =>
          match s'.consumeAll ks with
          | none => none
          | some (rs, s'') => some (r :: rs, s'')

/-- `impl Default for KeySequence` (src/main.rs): the fixed unlock sequence
J U S T A P R A N K B R O with the index at 0. -/
def KeySequence.default : KeySequence :=
  { keys := [.J, .U, .S, .T, .A, .P, .R, .A, .N, .K, .B, .R, .O], idx := 0 }

/-- `enum CursorKind` (src/cursor.rs). -/
inductive CursorKind where
  | AppStarting | Normal | Crosshair | Hand | Ibeam | No
  | SizeAll | SizeNeSw | SizeNs | SizeNwSe | SizeWe | Up | Wait
  deriving DecidableEq, Repr

/-- `CursorKind::as_id` (src/cursor.rs), using the OCR_* constants of the
`missing_from_winapi` module. -/
def CursorKind.as_id : CursorKind → Nat
  | .AppStarting => 32650
  | .Normal => 32512
  | .Crosshair => 32515
  | .Hand => 32649
  | .Ibeam => 32513
  | .No => 32648
  | .SizeAll => 32646
  | .SizeNeSw => 32643
  | .SizeNs => 32645
  | .SizeNwSe => 32642
  | .SizeWe => 32644
  | .Up => 32516
  | .Wait => 32514

/-- `struct Cursor { handle: HANDLE }`: an owned OS cursor handle,
modelled as a natural number (0 is the null handle). -/
structure Cursor where
  handle : Nat
  deriving DecidableEq, Repr

/-- `struct ReplacedCursor { cursor: Cursor, kind: CursorKind }`: the retained
copy of the prior system image together with the occupied slot. -/
structure ReplacedCursor where
  cursor : Cursor
  kind : CursorKind
  deriving DecidableEq, Repr

/-- The observable OS state: the system cursor table (image per OCR slot id),
the image each allocated handle refers to, and a fresh-handle counter. -/
structure OsState where
  table : Nat → Nat
  handleImg : Nat → Nat
  nextHandle : Nat

/-- `SetSystemCursor(h, id)`: installs the image referred to by handle `h`
into system table slot `id`. -/
def setSystemCursor (σ : OsState) (h : Nat) (id : Nat) : OsState :=
  { σ with table := Function.update σ.table id (σ.handleImg h) }

/-- `Cursor::load_system` (src/cursor.rs): `LoadImageW` with
`MAKEINTRESOURCEW(kind.as_id())` and `LR_SHARED` reads the image currently
installed for `kind`, and `CopyImage` allocates a fresh private handle
carrying that image. -/
def Cursor.load_system (σ : OsState) (kind : CursorKind) : Cursor × OsState :=
  (⟨σ.nextHandle⟩,
   { table := σ.table,
     handleImg := Function.update σ.handleImg σ.nextHandle (σ.table kind.as_id),
     nextHandle := σ.nextHandle + 1 })

/-- `Cursor::replace_system` (src/cursor.rs): first retain a copy of the
current system image for `kind` via `load_system`, then install `self`'s
handle into the slot via `SetSystemCursor`. -/
def Cursor.replace_system (c : Cursor) (kind : CursorKind) (σ : OsState) :
    ReplacedCursor × OsState :=
  let p := Cursor.load_system σ kind
  (⟨p.1, kind⟩, setSystemCursor p.2 c.handle kind.as_id)

/-- `ReplacedCursor::revert` (src/cursor.rs): reassert the retained prior
image's handle into the slot for the override's kind. -/
def ReplacedCursor.revert (r : ReplacedCursor) (σ : OsState) : OsState :=
  setSystemCursor σ r.cursor.handle r.kind.as_id

/-- `winapi::shared::winerror::ERROR_FILE_NOT_FOUND`. -/
def ERROR_FILE_NOT_FOUND : Nat := 2

/-- Outcome of `Cursor::from_file`: `ok` is `Ok(Cursor)`, `err` the returned
(recoverable) `io::Error` with its OS code, `fatal` the `panic!` branch. -/
inductive LoadResult where
  | ok (c : Cursor)
  | err (osCode : Nat)
  | fatal (osCode : Nat)
  deriving DecidableEq, Repr

/-- `Cursor::from_file` (src/cursor.rs), parametrised by the outcome of the
`LoadImageW` call: the handle it returned (0 = null) and the `GetLastError`
value consulted on failure. A null handle with `ERROR_FILE_NOT_FOUND` is
returned as a recoverable error; a null handle with any other code panics;
a non-null handle is wrapped as an owned `Cursor`. -/
def Cursor.from_file (handle : Nat) (lastError : Nat) : LoadResult :=
  if handle = 0 then
    if lastError = ERROR_FILE_NOT_FOUND then .err lastError
    else .fatal lastError
  else .ok ⟨handle⟩

/-- The startup prefix of `main` (src/main.rs):
`Cursor::from_file("normal.cur").unwrap().replace_system(CursorKind::Normal)`.
`none` models both the `unwrap` panic on `Err` and the panic inside
`from_file`: in either case no override is installed. -/
def startup (handle lastError : Nat) (σ : OsState) :
    Option (ReplacedCursor × OsState) :=
  match Cursor.from_file handle lastError with
  | .ok c => some (c.replace_system CursorKind.Normal σ)
  | .err _ => none
  | .fatal _ => none

/-- `process_input` and `consume` are the same function: the Rust `bool`
result is `true` exactly on the `Complete` branch. -/
theorem process_input_eq_consume (s : KeySequence) (k : VirtualKeyCode) :
    s.process_input k =
      (s.consume k).map fun p => (p.1 == MatchResult.Complete, p.2) := by
  unfold KeySequence.process_input KeySequence.consume
  cases s.keys[s.idx]? with
  | none => rfl
  | some expected =>
      by_cases h1 : expected = k
      · by_cases h2 : s.idx = s.keys.length - 1 <;> simp [h1, h2]
      · simp [h1]

/-- Reading a list at the length of its prefix lands on the first appended
element. -/
theorem getElem?_append_cons (pre : List VirtualKeyCode) (k : VirtualKeyCode)
    (rest : List VirtualKeyCode) : (pre ++ k :: rest)[pre.length]? = some k := by
  induction pre with
  | nil => simp
  | cons a pre ih => simpa using ih

/-- A matching symbol at a non-final position advances the index and is a
`Partial` match. -/
theorem consume_match_mid (s : KeySequence) (k : VirtualKeyCode)
    (h : s.keys[s.idx]? = some k) (hmid : ¬ s.idx = s.keys.length - 1) :
    s.consume k = some (.Partial, ⟨s.keys, s.idx + 1⟩) := by
  simp [KeySequence.consume, h, hmid]

/-- A matching symbol at the final position is a `Complete` match and leaves
the state unchanged. -/
theorem consume_match_last (s : KeySequence) (k : VirtualKeyCode)
    (h : s.keys[s.idx]? = some k) (hlast : s.idx = s.keys.length - 1) :
    s.consume k = some (.Complete, s) := by
  have h' := h
  rw [hlast] at h'
  simp [KeySequence.consume, h', hlast]

/-- A mismatching symbol hard-resets the index to 0 and is a `NoMatch`. -/
theorem consume_mismatch (s : KeySequence) (k e : VirtualKeyCode)
    (h : s.keys[s.idx]? = some e) (hne : ¬ e = k) :
    s.consume k = some (.NoMatch, ⟨s.keys, 0⟩) := by
  simp [KeySequence.consume, h, hne]

/-- One step of `consumeAll`, given the result of the first `consume`. -/
theorem consumeAll_cons_of_consume (s : KeySequence) (k : VirtualKeyCode)
    (ks : List VirtualKeyCode) (r : MatchResult) (s' : KeySequence)
    (h : s.consume k = some (r, s')) :
    s.consumeAll (k :: ks) =
      match s'.consumeAll ks with
      | none => none
      | some (rs, s'') => some (r :: rs, s'') := by
  simp only [KeySequence.consumeAll, h]

/-- Running the remaining suffix of the target from the matching position
yields Partial at every non-final symbol and Complete at the last, leaving
the index at the final position. -/
theorem consumeAll_target_suffix :
    ∀ (suf pre : List VirtualKeyCode), suf ≠ [] →
      KeySequence.consumeAll ⟨pre ++ suf, pre.length⟩ suf =
        some (List.replicate (suf.length - 1) MatchResult.Partial ++
                [MatchResult.Complete],
              ⟨pre ++ suf, (pre ++ suf).length - 1⟩) := by
  intro suf
  induction suf with
  | nil => intro pre h; exact absurd rfl h
  | cons k rest ih =>
      intro pre _
      cases rest with
      | nil =>
          have h1 : KeySequence.consume ⟨pre ++ [k], pre.length⟩ k =
              some (.Complete, ⟨pre ++ [k], pre.length⟩) :=
            consume_match_last _ _ (getElem?_append_cons pre k []) (by simp)
          rw [consumeAll_cons_of_consume _ _ _ _ _ h1]
          simp [KeySequence.consumeAll]
      | cons r rest' =>
          have hmid : ¬ pre.length = (pre ++ k :: r :: rest').length - 1 := by
            simp only [List.length_append, List.length_cons]
            omega
          have h1 : KeySequence.consume ⟨pre ++ k :: r :: rest', pre.length⟩ k =
              some (.Partial, ⟨pre ++ k :: r :: rest', pre.length + 1⟩) :=
            consume_match_mid _ _ (getElem?_append_cons pre k (r :: rest')) hmid
          have hih := ih (pre ++ [k]) (by simp)
          simp only [List.append_assoc, List.singleton_append, List.length_append,
            List.length_cons, List.length_nil, Nat.zero_add] at hih
          rw [consumeAll_cons_of_consume _ _ _ _ _ h1, hih]
          simp only [List.length_cons, List.length_append, Nat.add_sub_cancel,
            List.replicate_succ, List.cons_append]

/-- One `consume` from an in-bounds index succeeds and leaves the index in
bounds, with the target unchanged. -/
theorem consume_preserves_bounds (s : KeySequence) (k : VirtualKeyCode)
    (h : s.idx < s.keys.length) :
    ∃ r s', s.consume k = some (r, s') ∧ s'.keys = s.keys ∧
      s'.idx < s'.keys.length := by
  have hget : s.keys[s.idx]? = some s.keys[s.idx] := List.getElem?_eq_getElem h
  by_cases h1 : s.keys[s.idx] = k
  · by_cases h2 : s.idx = s.keys.length - 1
    · exact ⟨_, _, consume_match_last s k (h1 ▸ hget) h2, rfl, h⟩
    · exact ⟨_, _, consume_match_mid s k (h1 ▸ hget) h2, rfl, by
        simp only []
        omega⟩
  · exact ⟨_, _, consume_mismatch s k _ hget h1, rfl, by
      simp only []
      omega⟩

/-- Any finite stream consumed from an in-bounds index succeeds and leaves
the index in bounds, with the target unchanged. -/
theorem consumeAll_preserves_bounds :
    ∀ (inputs : List VirtualKeyCode) (s : KeySequence), s.idx < s.keys.length →
      ∃ rs s', s.consumeAll inputs = some (rs, s') ∧ s'.keys = s.keys ∧
        s'.idx < s'.keys.length := by
  intro inputs
  induction inputs with
  | nil => intro s h; exact ⟨[], s, rfl, rfl, h⟩
  | cons k ks ih =>
      intro s h
      obtain ⟨r, s', hc, hkeys, hi⟩ := consume_preserves_bounds s k h
      obtain ⟨rs, s'', hca, hkeys', hi'⟩ := ih s' hi
      refine ⟨r :: rs, s'', ?_, hkeys ▸ hkeys', hi'⟩
      rw [consumeAll_cons_of_consume _ _ _ _ _ hc, hca]

/-- C10: the default-constructed recognizer's fixed unlock sequence is
exactly the 13 virtual key codes J, U, S, T, A, P, R, A, N, K, B, R, O,
with the index initialized to 0. -/
theorem default_unlock_sequence :
    KeySequence.default.keys =
      [.J, .U, .S, .T, .A, .P, .R, .A, .N, .K, .B, .R, .O] ∧
    KeySequence.default.keys.length = 13 ∧
    KeySequence.default.idx = 0 :=
  ⟨rfl, rfl, rfl⟩

/-- C1 counterexample: over target [A, B, C] at index 2, consuming C reports
Complete but leaves the index at 2, not 0; consequently feeding the target
twice from a fresh recognizer yields Partial, Partial, Complete, NoMatch,
NoMatch, NoMatch — the second pass does not reproduce the first. -/
theorem complete_does_not_reset_index_cex :
    KeySequence.consume ⟨[.A, .B, .C], 2⟩ .C =
      some (.Complete, ⟨[.A, .B, .C], 2⟩) ∧
    ¬ (KeySequence.consume ⟨[.A, .B, .C], 2⟩ .C =
        some (.Complete, ⟨[.A, .B, .C], 0⟩)) ∧
    (KeySequence.consumeAll ⟨[.A, .B, .C], 0⟩
        [.A, .B, .C, .A, .B, .C]).map Prod.fst =
      some [.Partial, .Partial, .Complete, .NoMatch, .NoMatch, .NoMatch] ∧
    ¬ ((KeySequence.consumeAll ⟨[.A, .B, .C], 0⟩
          [.A, .B, .C, .A, .B, .C]).map Prod.fst =
        some [.Partial, .Partial, .Complete, .Partial, .Partial, .Complete]) := by
  decide

/-- C1 (amended): when consume is called with the symbol equal to
target[index] while index = N-1, it reports Complete and leaves the whole
state — in particular the index, still N-1 — unchanged; it does not reset
the index to 0, so an immediate replay of the full target does not in
general repeat the original result sequence. -/
theorem complete_leaves_index_at_end (s : KeySequence) (e : VirtualKeyCode)
    (h : s.keys[s.idx]? = some e) (hlast : s.idx = s.keys.length - 1) :
    s.consume e = some (.Complete, s) :=
  consume_match_last s e h hlast

/-- Witness for C1 (amended) at target [A, B, C], index 2, symbol C. -/
theorem complete_leaves_index_at_end_witness :
    KeySequence.consume ⟨[.A, .B, .C], 2⟩ .C =
      some (.Complete, ⟨[.A, .B, .C], 2⟩) :=
  complete_leaves_index_at_end ⟨[.A, .B, .C], 2⟩ .C (by decide) rfl

/-- C2 counterexample: over target [A, B, C] (pairwise distinct), consuming
[A, A, B, C] yields Partial, NoMatch, NoMatch, NoMatch — not the claimed
Partial, Partial, Partial, Complete. -/
theorem repeated_lead_symbol_cex :
    (KeySequence.consumeAll ⟨[.A, .B, .C], 0⟩ [.A, .A, .B, .C]).map Prod.fst =
      some [.Partial, .NoMatch, .NoMatch, .NoMatch] ∧
    ¬ ((KeySequence.consumeAll ⟨[.A, .B, .C], 0⟩ [.A, .A, .B, .C]).map Prod.fst =
        some [.Partial, .Partial, .Partial, .Complete]) := by
  decide

/-- C2 (amended): for any pairwise distinct a, b, c, consuming [a, a, b, c]
over target [a, b, c] yields Partial, NoMatch, NoMatch, NoMatch: the repeated
leading symbol hits the hard reset, which does not re-scan it against the
start of the target, so the match is lost and no Complete occurs. -/
theorem repeated_lead_symbol_hard_reset (a b c : VirtualKeyCode)
    (hab : a ≠ b) (_hbc : b ≠ c) (hac : a ≠ c) :
    KeySequence.consumeAll ⟨[a, b, c], 0⟩ [a, a, b, c] =
      some ([.Partial, .NoMatch, .NoMatch, .NoMatch], ⟨[a, b, c], 0⟩) := by
  have h1 : KeySequence.consume ⟨[a, b, c], 0⟩ a =
      some (.Partial, ⟨[a, b, c], 1⟩) :=
    consume_match_mid _ _ (by simp) (by simp)
  have h2 : KeySequence.consume ⟨[a, b, c], 1⟩ a =
      some (.NoMatch, ⟨[a, b, c], 0⟩) :=
    consume_mismatch _ _ b (by simp) (Ne.symm hab)
  have h3 : KeySequence.consume ⟨[a, b, c], 0⟩ b =
      some (.NoMatch, ⟨[a, b, c], 0⟩) :=
    consume_mismatch _ _ a (by simp) hab
  have h4 : KeySequence.consume ⟨[a, b, c], 0⟩ c =
      some (.NoMatch, ⟨[a, b, c], 0⟩) :=
    consume_mismatch _ _ a (by simp) hac
  rw [consumeAll_cons_of_consume _ _ _ _ _ h1,
      consumeAll_cons_of_consume _ _ _ _ _ h2,
      consumeAll_cons_of_consume _ _ _ _ _ h3,
      consumeAll_cons_of_consume _ _ _ _ _ h4]
  rfl

/-- Witness for C2 (amended) at the distinct symbols A, B, C. -/
theorem repeated_lead_symbol_hard_reset_witness :
    KeySequence.consumeAll ⟨[.A, .B, .C], 0⟩ [.A, .A, .B, .C] =
      some ([.Partial, .NoMatch, .NoMatch, .NoMatch], ⟨[.A, .B, .C], 0⟩) :=
  repeated_lead_symbol_hard_reset .A .B .C (by decide) (by decide) (by decide)

/-- C5: a symbol differing from target[index] hard-resets the index to 0 and
reports NoMatch — the resulting state does not depend on the mismatching
symbol, so it is not re-scanned against the start of the target — and a
subsequent full target stream then yields Partial at every non-final symbol
and Complete at the last. -/
theorem mismatch_hard_reset_then_full_target (s : KeySequence)
    (e sym : VirtualKeyCode) (h : s.keys[s.idx]? = some e) (hne : e ≠ sym) :
    s.consume sym = some (.NoMatch, ⟨s.keys, 0⟩) ∧
    KeySequence.consumeAll ⟨s.keys, 0⟩ s.keys =
      some (List.replicate (s.keys.length - 1) MatchResult.Partial ++
              [MatchResult.Complete],
            ⟨s.keys, s.keys.length - 1⟩) := by
  constructor
  · exact consume_mismatch s sym e h hne
  · have hk : s.keys ≠ [] := by
      intro hnil
      rw [hnil] at h
      simp at h
    simpa using consumeAll_target_suffix s.keys [] hk

/-- C8: with a non-empty target, any finite sequence of consume calls from
index 0 succeeds (no read past the end of the target — an out-of-bounds read
would surface as `none`) and at every point the index remains a valid
position of the unchanged target. -/
theorem index_always_in_bounds (keys inputs : List VirtualKeyCode)
    (hk : keys ≠ []) :
    ∃ rs s', KeySequence.consumeAll ⟨keys, 0⟩ inputs = some (rs, s') ∧
      s'.keys = keys ∧ s'.idx < keys.length := by
  have h0 : (⟨keys, 0⟩ : KeySequence).idx < (⟨keys, 0⟩ : KeySequence).keys.length :=
    List.length_pos.mpr hk
  obtain ⟨rs, s', h, hkeys, hi⟩ := consumeAll_preserves_bounds inputs ⟨keys, 0⟩ h0
  exact ⟨rs, s', h, hkeys, by rw [hkeys] at hi; exact hi⟩

/-- Witness for C8 at target [A, B] and the stream [A, X, A, B, B]. -/
theorem index_always_in_bounds_witness :
    ∃ rs s', KeySequence.consumeAll ⟨[.A, .B], 0⟩ [.A, .X, .A, .B, .B] =
        some (rs, s') ∧ s'.keys = [.A, .B] ∧ s'.idx < 2 :=
  index_always_in_bounds [.A, .B] [.A, .X, .A, .B, .B] (by decide)

/-- C9: whenever process_input returns true, the state is unchanged with the
index at the final position N-1; consuming that same final symbol again
returns true (Complete) arbitrarily many times in a row, while consuming any
other symbol resets the index to 0 and returns false. -/
theorem complete_is_repeatable (s : KeySequence) (k : VirtualKeyCode)
    (s' : KeySequence) (h : s.process_input k = some (true, s')) :
    s' = s ∧ s.idx = s.keys.length - 1 ∧
    (∀ n, s.consumeAll (List.replicate n k) =
        some (List.replicate n MatchResult.Complete, s)) ∧
    (∀ k', k' ≠ k → s.process_input k' = some (false, ⟨s.keys, 0⟩)) := by
  have hex : ∃ e, s.keys[s.idx]? = some e := by
    cases hget : s.keys[s.idx]? with
    | none =>
        unfold KeySequence.process_input at h
        rw [hget] at h
        exact absurd h (by simp)
    | some e => exact ⟨e, rfl⟩
  obtain ⟨e, hget⟩ := hex
  by_cases h1 : e = k
  · subst h1
    by_cases h2 : s.idx = s.keys.length - 1
    · have hp : s.process_input e = some (true, s) := by
        rw [process_input_eq_consume, consume_match_last s e hget h2]
        rfl
      have hs : s = s' := by simpa using hp.symm.trans h
      subst hs
      refine ⟨rfl, h2, ?_, ?_⟩
      · intro n
        induction n with
        | zero => rfl
        | succ n ihn =>
            rw [List.replicate_succ,
              consumeAll_cons_of_consume _ _ _ _ _
                (consume_match_last s e hget h2),
              ihn, List.replicate_succ]
      · intro k' hk'
        rw [process_input_eq_consume,
          consume_mismatch s k' e hget (fun hh => hk' hh.symm)]
        rfl
    · have hp : s.process_input e = some (false, ⟨s.keys, s.idx + 1⟩) := by
        rw [process_input_eq_consume, consume_match_mid s e hget h2]
        rfl
      rw [hp] at h
      simp at h
  · have hp : s.process_input k = some (false, ⟨s.keys, 0⟩) := by
      rw [process_input_eq_consume, consume_mismatch s k e hget h1]
      rfl
    rw [hp] at h
    simp at h

/-- Witness for C9 at target [A, B], index 1, symbol B. -/
theorem complete_is_repeatable_witness :
    (⟨[.A, .B], 1⟩ : KeySequence) = ⟨[.A, .B], 1⟩ ∧
    (1 : Nat) = 2 - 1 ∧
    (∀ n, KeySequence.consumeAll ⟨[.A, .B], 1⟩ (List.replicate n .B) =
        some (List.replicate n MatchResult.Complete, ⟨[.A, .B], 1⟩)) ∧
    (∀ k', k' ≠ VirtualKeyCode.B →
        KeySequence.process_input ⟨[.A, .B], 1⟩ k' =
          some (false, ⟨[.A, .B], 0⟩)) :=
  complete_is_repeatable ⟨[.A, .B], 1⟩ .B ⟨[.A, .B], 1⟩ (by decide)

/-- C4: replace_system first retains a copy of the current system image for
the kind (the handle it keeps refers to the image the slot held immediately
before installation), and only then installs the replacement; consequently,
for every CursorKind and every prior state, installing and then reverting
restores the system table slot to the value it held before installation. -/
theorem install_then_revert_restores_slot (c : Cursor) (kind : CursorKind)
    (σ : OsState) :
    ((c.replace_system kind σ).2).handleImg
        ((c.replace_system kind σ).1).cursor.handle = σ.table kind.as_id ∧
    (((c.replace_system kind σ).1).revert
        ((c.replace_system kind σ).2)).table kind.as_id = σ.table kind.as_id := by
  constructor
  · simp [Cursor.replace_system, Cursor.load_system, setSystemCursor,
      ReplacedCursor.revert, Function.update_same]
  · simp [Cursor.replace_system, Cursor.load_system, setSystemCursor,
      ReplacedCursor.revert, Function.update_same]

/-- C7: revert is idempotent in effect: calling it twice in a row produces
exactly the same OS state as calling it once, and each call (re)asserts the
retained prior image into the slot for the override's kind. -/
theorem revert_idempotent (r : ReplacedCursor) (σ : OsState) :
    r.revert (r.revert σ) = r.revert σ ∧
    (r.revert σ).table r.kind.as_id = σ.handleImg r.cursor.handle := by
  constructor
  · simp [ReplacedCursor.revert, setSystemCursor, Function.update_idem]
  · simp [ReplacedCursor.revert, setSystemCursor, Function.update_same]

/-- C6: from_file returns the recoverable error exactly when the load failed
with ERROR_FILE_NOT_FOUND (the file does not exist), panics fatally on a
load failure with any other OS code, returns an owned Cursor exactly on
success, and on any load failure the program's startup installs no override
at all. -/
theorem from_file_error_classification (handle lastError : Nat) (σ : OsState) :
    (Cursor.from_file handle lastError = .err lastError ↔
        handle = 0 ∧ lastError = ERROR_FILE_NOT_FOUND) ∧
    (Cursor.from_file handle lastError = .fatal lastError ↔
        handle = 0 ∧ lastError ≠ ERROR_FILE_NOT_FOUND) ∧
    (Cursor.from_file handle lastError = .ok ⟨handle⟩ ↔ handle ≠ 0) ∧
    (handle = 0 → startup handle lastError σ = none) := by
  by_cases h1 : handle = 0 <;> by_cases h2 : lastError = ERROR_FILE_NOT_FOUND <;>
    simp [Cursor.from_file, startup, h1, h2]

/-- Witness for C5 at target [A, B, C], index 1, mismatching symbol A (which
equals the target's first symbol, showing it is not re-scanned). -/
theorem mismatch_hard_reset_then_full_target_witness :
    KeySequence.consume ⟨[.A, .B, .C], 1⟩ .A =
      some (.NoMatch, ⟨[.A, .B, .C], 0⟩) ∧
    KeySequence.consumeAll ⟨[.A, .B, .C], 0⟩ [.A, .B, .C] =
      some ([.Partial, .Partial, .Complete], ⟨[.A, .B, .C], 2⟩) :=
  mismatch_hard_reset_then_full_target ⟨[.A, .B, .C], 1⟩ .B .A
    (by decide) (by decide)
